import Mathlib

/-!
Verification of the file-to-ticket synchronization engine of `jira_tickets.py`.

The development shallowly embeds the core of the program:

* `stripStr` models Python `str.strip()` (ASCII whitespace).
* `scanStep`/`scanTags` model the regex operations `re.findall(r'#(\w+)', text)`
  and `re.sub(r'#\w+', '', text)` as a single left-to-right scan, from which
  `extract_hashtags` and `clean_summary` are defined.
* `generate_content_hash` keeps the source's strip-then-digest shape; the
  SHA-256/hex-truncation digest itself is abstracted as a parameter
  `digest : String → String` (the claims quantify over fingerprints).
* The external Jira tracker is modelled by `Jira`: a list of tickets, a key
  counter, and a failure oracle `failAt` deciding which `create_issue` calls
  raise (any exception in `create_ticket` makes it return `none`, as in the
  Python `except` clause).  JQL search `description ~ "Content-Hash: h" AND
  statusCategory != Done` is modelled as equality on the stored content hash
  of non-done tickets, in search order.
* The filesystem is an association list `FS` from path to list of lines
  (lines are stored without their trailing newline; the rewrite step always
  terminates each written line with a newline, so this is faithful).
* `process_line`, `onePass` (the body of one lock-read-process-rewrite
  cycle, lines 135-155 of the source), `process_single_file` (the retrying
  `while True` loop, with a fuel bound standing for elapsed iterations) and
  `process_file` follow the source structure.  `process_single_file`'s
  branch for a missing file models the Python behaviour that
  `FileNotFoundError` is an `IOError` and is caught by the lock-contention
  handler, which sleeps and retries.
* Observable gateway interaction is recorded as a trace of events `Ev`.
-/

/-- Characters stripped by Python `str.strip()` (ASCII whitespace subset). -/
def isSpaceChar (c : Char) : Bool :=
  c = ' ' || c = '\t' || c = '\n' || c = '\r' || c = '\x0b' || c = '\x0c'

/-- Strip leading and trailing whitespace from a character list. -/
def stripL (l : List Char) : List Char :=
  ((l.dropWhile isSpaceChar).reverse.dropWhile isSpaceChar).reverse

/-- Python `text.strip()`. -/
def stripStr (s : String) : String := ⟨stripL s.data⟩

/-- Python regex `\w` on ASCII: letters, digits, underscore. -/
def isWordChar (c : Char) : Bool := c.isAlphanum || c = '_'

/-- State of the left-to-right scan implementing `re.findall(r'#(\w+)')` /
`re.sub(r'#\w+', '')`: either in plain text, just after an unresolved `#`,
or inside the word-character run following a `#`. -/
inductive ScanMode where
  | normal
  | afterHash
  | inTag (cur : List Char)

/-- Scanner state: tags found so far, output text with matches removed, mode. -/
structure ScanSt where
  tags : List String
  out : List Char
  mode : ScanMode

/-- One step of the regex scan.  A `#` followed by at least one word character
opens a capture `#(\w+)` that extends over the maximal word-character run; a
`#` not followed by a word character matches nothing and stays in the text. -/
def scanStep (s : ScanSt) (c : Char) : ScanSt :=
  match s.mode with
  | .normal =>
    if c = '#' then { s with mode := .afterHash }
    else { s with out := s.out ++ [c] }
  | .afterHash =>
    if isWordChar c then { s with mode := .inTag [c] }
    else if c = '#' then { s with out := s.out ++ ['#'] }
    else { s with out := s.out ++ ['#', c], mode := .normal }
  | .inTag cur =>
    if isWordChar c then { s with mode := .inTag (cur ++ [c]) }
    else if c = '#' then { s with tags := s.tags ++ [String.mk cur], mode := .afterHash }
    else { s with tags := s.tags ++ [String.mk cur], out := s.out ++ [c], mode := .normal }

/-- Close a pending match at end of input. -/
def scanFinish (s : ScanSt) : List String × List Char :=
  match s.mode with
  | .normal => (s.tags, s.out)
  | .afterHash => (s.tags, s.out ++ ['#'])
  | .inTag cur => (s.tags ++ [String.mk cur], s.out)

/-- All `#(\w+)` matches of the text, in order, together with the text with
every `#\w+` match removed. -/
def scanTags (l : List Char) : List String × List Char :=
  scanFinish (l.foldl scanStep ⟨[], [], .normal⟩)

/-- `extract_hashtags`: `re.findall(r'#(\w+)', text)`. -/
def extract_hashtags (s : String) : List String := (scanTags s.data).1

/-- `clean_summary`: `re.sub(r'#\w+', '', text).strip()`. -/
def clean_summary (s : String) : String := stripStr ⟨(scanTags s.data).2⟩

/-- `generate_content_hash`: strip, then apply the digest
(`hashlib.sha256(...).hexdigest()[:12]` abstracted as `digest`). -/
def generate_content_hash (digest : String → String) (text : String) : String :=
  digest (stripStr text)

/-- A tracker-side ticket, with the fields the program reads or writes:
key, summary, labels, the fingerprint embedded in its description
(`Content-Hash: <hash>`), and whether its status category is Done. -/
structure Ticket where
  key : Nat
  summary : String
  labels : List String
  contentHash : String
  done : Bool
deriving DecidableEq, Repr

/-- The Jira gateway: current tickets in search order, the next key the
tracker will assign, an oracle telling which `create_issue` calls raise,
and how many `create_issue` calls have happened. -/
structure Jira where
  tickets : List Ticket
  nextKey : Nat
  failAt : Nat → Bool
  calls : Nat

/-- `find_existing_ticket`: first ticket whose description carries the given
content hash and whose status category is not Done. -/
def find_existing_ticket (j : Jira) (h : String) : Option Ticket :=
  j.tickets.find? (fun t => decide (t.contentHash = h) && !t.done)

/-- `create_ticket`: return the key of an existing open ticket with this
hash if there is one; otherwise try to create a new ticket carrying the
parsed labels, the cleaned summary and the hash marker.  Any failure of the
tracker call is caught and surfaces as `none`. -/
def create_ticket (j : Jira) (line h : String) : Option Nat × Jira :=
  match find_existing_ticket j h with
  | some t => (some t.key, j)
  | none =>
    if j.failAt j.calls then
      (none, { j with calls := j.calls + 1 })
    else
      (some j.nextKey,
       { j with
          tickets := j.tickets ++
            [{ key := j.nextKey, summary := clean_summary line,
               labels := extract_hashtags line, contentHash := h, done := false }],
          nextKey := j.nextKey + 1,
          calls := j.calls + 1 })

/-- Observable gateway events of a run. -/
inductive Ev where
  | connect
  | attempt (line : String)
  | success (line : String) (key : Nat)
deriving DecidableEq, Repr

/-- Result of `process_line`: the returned pair `(success, line)`, the
tracker state after the call, and the gateway events it produced. -/
structure LineOut where
  ok : Bool
  text : String
  jira : Jira
  tr : List Ev

/-- `process_line`: strip the line; a blank line is consumed as a success
with no gateway call; otherwise hash it and call `create_ticket`. -/
def process_line (digest : String → String) (j : Jira) (line : String) : LineOut :=
  let l := stripStr line
  if l = "" then ⟨true, l, j, []⟩
  else
    match create_ticket j l (generate_content_hash digest l) with
    | (some k, j2) => ⟨true, l, j2, [.attempt l, .success l k]⟩
    | (none, j2) => ⟨false, l, j2, [.attempt l]⟩

/-- Result of one lock-read-process-rewrite cycle (lines 135-155 of the
source): successes of this cycle, the scratch-file contents that are copied
back over the target (`kept`), the tracker state, and the gateway events. -/
structure PassOut where
  succ : Nat
  kept : List String
  jira : Jira
  tr : List Ev

/-- One cycle of the drain loop: run `process_line` over each line in order,
counting successes and writing failed lines (as returned, i.e. stripped) to
the scratch file. -/
def onePass (digest : String → String) : Jira → List String → PassOut
  | j, [] => ⟨0, [], j, []⟩
  | j, line :: rest =>
    let r := process_line digest j line
    let o := onePass digest r.jira rest
    ⟨(if r.ok then 1 else 0) + o.succ,
     (if r.ok then [] else [r.text]) ++ o.kept,
     o.jira,
     r.tr ++ o.tr⟩

/-- Per-line verdicts of one cycle: for each input line, the text
`process_line` returns for it (its stripped form) and whether it was
consumed (blank or successfully ticketed).  Used to state what a cycle
writes back. -/
def passVerdicts (digest : String → String) : Jira → List String → List (String × Bool)
  | _, [] => []
  | j, line :: rest =>
    let r := process_line digest j line
    (r.text, r.ok) :: passVerdicts digest r.jira rest

/-- The filesystem: an association list from path to file lines (each line
stored without its trailing newline). -/
abbrev FS := List (String × List String)

/-- Contents of a file, `none` when the path does not exist. -/
def lookupFS (fs : FS) (p : String) : Option (List String) :=
  (fs.find? (fun e => decide (e.1 = p))).map (fun e => e.2)

/-- Overwrite the contents of an existing file (no-op for a missing path). -/
def updateFS (fs : FS) (p : String) (v : List String) : FS :=
  fs.map (fun e => if e.1 = p then (p, v) else e)

/-- `os.remove`: delete a path. -/
def eraseFS (fs : FS) (p : String) : FS :=
  fs.filter (fun e => !(decide (e.1 = p)))

/-- Result of `process_single_file`: the successful count if the loop
returned (`none` while it is still looping after the given number of
iterations), the tracker state, the filesystem, and the gateway events. -/
structure DrainRes where
  res : Option Nat
  jira : Jira
  fs : FS
  tr : List Ev

/-- `process_single_file`: the `while True` drain loop.  `fuel` bounds the
number of loop iterations we observe.  If the path does not exist, the
`open` raises `FileNotFoundError`, an `IOError`, which the lock-contention
handler catches: sleep and retry with nothing changed.  If the file has no
lines, break without rewriting.  Otherwise run one cycle, truncate the file
and copy the scratch contents back; if the scratch file is empty, break and
return the accumulated count, else loop again on the written-back lines. -/
def process_single_file (digest : String → String) :
    Nat → Jira → FS → String → Nat → DrainRes
  | 0, j, fs, _, _ => ⟨none, j, fs, []⟩
  | fuel + 1, j, fs, path, acc =>
    match lookupFS fs path with
    | none => process_single_file digest fuel j fs path acc
    | some lines =>
      if lines = [] then ⟨some acc, j, fs, []⟩
      else
        let p := onePass digest j lines
        let fs2 := updateFS fs path p.kept
        if p.kept = [] then ⟨some (acc + p.succ), p.jira, fs2, p.tr⟩
        else
          let r := process_single_file digest fuel p.jira fs2 path (acc + p.succ)
          ⟨r.res, r.jira, r.fs, p.tr ++ r.tr⟩

/-- Prefix test on character lists. -/
def isPrefixL : List Char → List Char → Bool
  | [], _ => true
  | _ :: _, [] => false
  | a :: as, b :: bs => a == b && isPrefixL as bs

/-- `os.path.splitext(basename)[0]`: drop the extension that starts at the
last dot, where leading dots of the name are not extension separators. -/
def name_without_ext (l : List Char) : List Char :=
  let rest := l.dropWhile (fun c => c == '.')
  if rest.contains '.' then
    (l.takeWhile (fun c => c == '.')) ++ ((rest.reverse.dropWhile (fun c => c != '.')).drop 1).reverse
  else l

/-- Does path `p` match the glob `<name_without_ext base>.sync-conflict-*.txt`?
(`*` matches any, possibly empty, sequence.) -/
def matchesConflictPattern (base p : String) : Bool :=
  let pre := name_without_ext base.data ++ ".sync-conflict-".data
  isPrefixL pre p.data && isPrefixL ".txt".data.reverse (p.data.drop pre.length).reverse

/-- `get_sync_conflict_files`: the existing paths matching the conflict
pattern of the base filename, in directory order. -/
def get_sync_conflict_files (fs : FS) (base : String) : List String :=
  (fs.map (fun e => e.1)).filter (fun p => matchesConflictPattern base p)

/-- Result of `process_file`: the reported total if the invocation ran to
completion (`none` if a drain was still looping), tracker, filesystem and
the gateway events of the invocation. -/
structure RunRes where
  total : Option Nat
  jira : Jira
  fs : FS
  tr : List Ev

/-- The conflict-file phase of `process_file`: drain each discovered
conflict file, accumulate its count, and delete it afterwards. -/
def drainConflicts (digest : String → String) (fuel : Nat) :
    Jira → FS → List String → RunRes
  | j, fs, [] => ⟨some 0, j, fs, []⟩
  | j, fs, p :: ps =>
    let r := process_single_file digest fuel j fs p 0
    match r.res with
    | none => ⟨none, r.jira, r.fs, r.tr⟩
    | some c =>
      let o := drainConflicts digest fuel r.jira (eraseFS r.fs p) ps
      ⟨o.total.map (fun n => c + n), o.jira, o.fs, r.tr ++ o.tr⟩

/-- `process_file`: if the primary file does not exist, print and return at
once.  Otherwise connect to Jira exactly once (`connOk` says whether the
connection succeeds; on failure return with nothing touched), drain the
primary file, then drain and delete each discovered conflict file, and
report the accumulated total. -/
def process_file (digest : String → String) (fuel : Nat) (connOk : Bool)
    (j : Jira) (fs : FS) (path : String) : RunRes :=
  if lookupFS fs path = none then ⟨some 0, j, fs, []⟩
  else if connOk = false then ⟨some 0, j, fs, [.connect]⟩
  else
    let r := process_single_file digest fuel j fs path 0
    match r.res with
    | none => ⟨none, r.jira, r.fs, .connect :: r.tr⟩
    | some c =>
      let o := drainConflicts digest fuel r.jira r.fs (get_sync_conflict_files r.fs path)
      ⟨o.total.map (fun n => c + n), o.jira, o.fs, .connect :: (r.tr ++ o.tr)⟩

/-- Is an event a successful ticket conversion? -/
def evIsSuccess : Ev → Bool
  | .success _ _ => true
  | _ => false

/-! ### Helper lemmas about stripping -/

theorem dropWhile_eq_cons_imp {α} {p : α → Bool} :
    ∀ {l : List α} {c : α} {t : List α}, l.dropWhile p = c :: t → p c = false := by
  intro l
  induction l with
  | nil => intro c t h; simp [List.dropWhile] at h
  | cons a as ih =>
    intro c t h
    by_cases hp : p a
    · rw [List.dropWhile_cons_of_pos hp] at h
      exact ih h
    · rw [List.dropWhile_cons_of_neg hp] at h
      cases h
      simpa using hp

theorem dropWhile_of_head_false {α} {p : α → Bool} {c : α} {t : List α}
    (h : p c = false) : (c :: t).dropWhile p = c :: t :=
  List.dropWhile_cons_of_neg (by simp [h])

theorem dropWhile_idem {α} {p : α → Bool} (l : List α) :
    (l.dropWhile p).dropWhile p = l.dropWhile p := by
  cases hl : l.dropWhile p with
  | nil => rfl
  | cons c t => exact dropWhile_of_head_false (dropWhile_eq_cons_imp hl)

theorem stripL_idem (l : List Char) : stripL (stripL l) = stripL l := by
  unfold stripL
  have hsplit := List.takeWhile_append_dropWhile isSpaceChar (l.dropWhile isSpaceChar).reverse
  generalize hy : (l.dropWhile isSpaceChar).reverse.dropWhile isSpaceChar = y at *
  have hxy : y.reverse.dropWhile isSpaceChar = y.reverse := by
    cases hyr : y.reverse with
    | nil => rfl
    | cons c t =>
      have hx2 : l.dropWhile isSpaceChar
          = y.reverse ++ ((l.dropWhile isSpaceChar).reverse.takeWhile isSpaceChar).reverse := by
        have h2 := congrArg List.reverse hsplit
        simpa [List.reverse_append] using h2.symm
      rw [hyr] at hx2
      have hxc : l.dropWhile isSpaceChar
          = c :: (t ++ ((l.dropWhile isSpaceChar).reverse.takeWhile isSpaceChar).reverse) := by
        simpa using hx2
      have hpc : isSpaceChar c = false := dropWhile_eq_cons_imp hxc
      exact dropWhile_of_head_false hpc
  rw [hxy, List.reverse_reverse]
  have hdy : y.dropWhile isSpaceChar = y := by rw [← hy]; exact dropWhile_idem _
  rw [hdy]

theorem stripStr_idem (s : String) : stripStr (stripStr s) = stripStr s := by
  simp [stripStr, stripL_idem]

/-! ### Lemmas about `process_line` and one cycle -/

theorem process_line_text (d : String → String) (j : Jira) (line : String) :
    (process_line d j line).text = stripStr line := by
  simp only [process_line]
  split
  · rfl
  · split <;> rfl

theorem process_line_blank (d : String → String) (j : Jira) (line : String)
    (h : stripStr line = "") :
    process_line d j line = ⟨true, stripStr line, j, []⟩ := by
  simp [process_line, h]

theorem process_line_covers (d : String → String) (j : Jira) (line : String)
    (h : ¬ stripStr line = "") :
    (∃ k, Ev.success (stripStr line) k ∈ (process_line d j line).tr) ∨
      (process_line d j line).ok = false := by
  cases hc : create_ticket j (stripStr line) (generate_content_hash d (stripStr line)) with
  | mk k j2 =>
    cases k with
    | none => right; simp [process_line, h, hc]
    | some k2 => left; exact ⟨k2, by simp [process_line, h, hc]⟩

theorem process_line_no_connect (d : String → String) (j : Jira) (line : String) :
    Ev.connect ∉ (process_line d j line).tr := by
  simp only [process_line]
  split
  · simp
  · split <;> simp

theorem onePass_covers (d : String → String) :
    ∀ (lines : List String) (j : Jira) (l : String), l ∈ lines → ¬ stripStr l = "" →
      (∃ k, Ev.success (stripStr l) k ∈ (onePass d j lines).tr) ∨
        stripStr l ∈ (onePass d j lines).kept := by
  intro lines
  induction lines with
  | nil => intro j l hl; cases hl
  | cons line rest ih =>
    intro j l hl hne
    rcases List.mem_cons.mp hl with heq | htail
    · subst heq
      rcases process_line_covers d j l hne with ⟨k, hk⟩ | hok
      · exact Or.inl ⟨k, by simp [onePass, List.mem_append, hk]⟩
      · right
        simp only [onePass, List.mem_append]
        left
        simp [hok, process_line_text]
    · rcases ih (process_line d j line).jira l htail hne with ⟨k, hk⟩ | hkept
      · exact Or.inl ⟨k, by simp [onePass, List.mem_append, hk]⟩
      · right
        simp [onePass, List.mem_append, hkept]

theorem onePass_kept_stripped (d : String → String) :
    ∀ (lines : List String) (j : Jira) (x : String), x ∈ (onePass d j lines).kept →
      stripStr x = x ∧ ¬ x = "" := by
  intro lines
  induction lines with
  | nil => intro j x hx; simp [onePass] at hx
  | cons line rest ih =>
    intro j x hx
    simp only [onePass, List.mem_append] at hx
    rcases hx with hhead | htail
    · by_cases hb : stripStr line = ""
      · rw [process_line_blank d j line hb] at hhead
        simp at hhead
      · have hok : (process_line d j line).text = stripStr line := process_line_text d j line
        rcases hxeq : (process_line d j line).ok with _ | _
        · rw [hxeq] at hhead
          simp at hhead
          subst hhead
          rw [hok]
          exact ⟨stripStr_idem line, hb⟩
        · rw [hxeq] at hhead
          simp at hhead
    · exact ih _ x htail

theorem onePass_no_connect (d : String → String) :
    ∀ (lines : List String) (j : Jira), Ev.connect ∉ (onePass d j lines).tr := by
  intro lines
  induction lines with
  | nil => intro j; simp [onePass]
  | cons line rest ih =>
    intro j
    simp only [onePass, List.mem_append]
    rintro (h | h)
    · exact process_line_no_connect d j line h
    · exact ih _ h

theorem onePass_verdicts (d : String → String) :
    ∀ (lines : List String) (j : Jira),
      ((passVerdicts d j lines).map Prod.fst = lines.map stripStr) ∧
      ((onePass d j lines).kept
        = ((passVerdicts d j lines).filter (fun v => !v.2)).map Prod.fst) ∧
      ((onePass d j lines).succ = (passVerdicts d j lines).countP (fun v => v.2)) := by
  intro lines
  induction lines with
  | nil => intro j; simp [onePass, passVerdicts]
  | cons line rest ih =>
    intro j
    obtain ⟨ih1, ih2, ih3⟩ := ih (process_line d j line).jira
    refine ⟨?_, ?_, ?_⟩
    · simp [passVerdicts, ih1, process_line_text]
    · rcases hok : (process_line d j line).ok with _ | _
      · simp [onePass, passVerdicts, hok, ih2, List.filter_cons]
      · simp [onePass, passVerdicts, hok, ih2, List.filter_cons]
    · rcases hok : (process_line d j line).ok with _ | _
      · simp [onePass, passVerdicts, hok, ih3, List.countP_cons]
      · simp [onePass, passVerdicts, hok, ih3, List.countP_cons, Nat.add_comm]

theorem onePass_succ_counts_blanks (d : String → String) :
    ∀ (lines : List String) (j : Jira),
      (onePass d j lines).succ
        = lines.countP (fun l => decide (stripStr l = ""))
          + ((onePass d j lines).tr.countP evIsSuccess) := by
  intro lines
  induction lines with
  | nil => intro j; simp [onePass]
  | cons line rest ih =>
    intro j
    by_cases hb : stripStr line = ""
    · have hpl := process_line_blank d j line hb
      simp only [onePass, hpl, List.countP_cons, List.countP_append]
      simp [ih j, hb]
      omega
    · cases hc : create_ticket j (stripStr line) (generate_content_hash d (stripStr line)) with
      | mk k j2 =>
        cases k with
        | none =>
          have hpl : process_line d j line
              = ⟨false, stripStr line, j2, [.attempt (stripStr line)]⟩ := by
            simp [process_line, hb, hc]
          simp only [onePass, hpl, List.countP_cons, List.countP_append]
          simp [ih j2, hb, evIsSuccess]
        | some k2 =>
          have hpl : process_line d j line
              = ⟨true, stripStr line, j2,
                 [.attempt (stripStr line), .success (stripStr line) k2]⟩ := by
            simp [process_line, hb, hc]
          simp only [onePass, hpl, List.countP_cons, List.countP_append]
          simp [ih j2, hb, evIsSuccess]
          omega

theorem process_line_allfail (d : String → String) (j : Jira) (line : String)
    (hT : j.tickets = []) (hF : j.failAt j.calls = true) (hne : ¬ stripStr line = "") :
    process_line d j line
      = ⟨false, stripStr line, { j with calls := j.calls + 1 }, [.attempt (stripStr line)]⟩ := by
  simp [process_line, hne, create_ticket, find_existing_ticket, hT, hF]

theorem onePass_allfail (d : String → String) :
    ∀ (lines : List String) (j : Jira), j.tickets = [] → (∀ n, j.failAt n = true) →
      ((onePass d j lines).jira.tickets = [] ∧
       (∀ n, (onePass d j lines).jira.failAt n = true) ∧
       ∀ l ∈ lines, ¬ stripStr l = "" → stripStr l ∈ (onePass d j lines).kept) := by
  intro lines
  induction lines with
  | nil => intro j hT hF; refine ⟨hT, hF, ?_⟩; intro l hl; cases hl
  | cons line rest ih =>
    intro j hT hF
    by_cases hb : stripStr line = ""
    · have hpl := process_line_blank d j line hb
      obtain ⟨i1, i2, i3⟩ := ih (process_line d j line).jira (by rw [hpl]; exact hT)
        (by rw [hpl]; exact hF)
      refine ⟨by simpa [onePass] using i1, by simpa [onePass] using i2, ?_⟩
      intro l hl hne
      rcases List.mem_cons.mp hl with heq | htail
      · subst heq; exact absurd hb hne
      · simp [onePass, List.mem_append, i3 l htail hne]
    · have hpl := process_line_allfail d j line hT (hF _) hb
      obtain ⟨i1, i2, i3⟩ := ih (process_line d j line).jira (by rw [hpl]; exact hT)
        (by rw [hpl]; intro n; exact hF n)
      refine ⟨by simpa [onePass] using i1, by simpa [onePass] using i2, ?_⟩
      intro l hl hne
      rcases List.mem_cons.mp hl with heq | htail
      · subst heq
        simp only [onePass, List.mem_append]
        left
        rw [hpl]
        simp
      · simp [onePass, List.mem_append, i3 l htail hne]

/-! ### Lemmas about the filesystem model -/

theorem lookupFS_cons (e : String × List String) (t : FS) (q : String) :
    lookupFS (e :: t) q = if e.1 = q then some e.2 else lookupFS t q := by
  by_cases h : e.1 = q <;> simp [lookupFS, h]

theorem updateFS_cons (e : String × List String) (t : FS) (p : String) (w : List String) :
    updateFS (e :: t) p w = (if e.1 = p then (p, w) else e) :: updateFS t p w := rfl

theorem eraseFS_cons (e : String × List String) (t : FS) (p : String) :
    eraseFS (e :: t) p = if e.1 = p then eraseFS t p else e :: eraseFS t p := by
  by_cases h : e.1 = p <;> simp [eraseFS, List.filter_cons, h]

theorem lookup_updateFS_self (p : String) (w : List String) :
    ∀ (fs : FS) v, lookupFS fs p = some v → lookupFS (updateFS fs p w) p = some w := by
  intro fs
  induction fs with
  | nil => intro v hv; simp [lookupFS] at hv
  | cons e t ih =>
    intro v hv
    rw [updateFS_cons]
    by_cases he : e.1 = p
    · rw [if_pos he, lookupFS_cons]
      simp
    · rw [lookupFS_cons, if_neg he] at hv
      rw [if_neg he, lookupFS_cons, if_neg he]
      exact ih v hv

theorem lookup_updateFS_ne (p q : String) (w : List String) (hq : ¬ q = p) :
    ∀ (fs : FS), lookupFS (updateFS fs p w) q = lookupFS fs q := by
  intro fs
  induction fs with
  | nil => simp [lookupFS, updateFS]
  | cons e t ih =>
    rw [updateFS_cons]
    by_cases he : e.1 = p
    · have h1 : ¬ (p, w).1 = q := fun h => hq (by simpa using h.symm)
      have h2 : ¬ e.1 = q := by rw [he]; exact fun h => hq h.symm
      rw [if_pos he, lookupFS_cons, if_neg h1, lookupFS_cons, if_neg h2]
      exact ih
    · rw [if_neg he, lookupFS_cons, lookupFS_cons]
      by_cases heq : e.1 = q
      · rw [if_pos heq, if_pos heq]
      · rw [if_neg heq, if_neg heq]
        exact ih

theorem lookup_eraseFS_self (p : String) :
    ∀ (fs : FS), lookupFS (eraseFS fs p) p = none := by
  intro fs
  induction fs with
  | nil => simp [lookupFS, eraseFS]
  | cons e t ih =>
    rw [eraseFS_cons]
    by_cases he : e.1 = p
    · rw [if_pos he]; exact ih
    · rw [if_neg he, lookupFS_cons, if_neg he]; exact ih

theorem lookup_eraseFS_ne (p q : String) (hq : ¬ q = p) :
    ∀ (fs : FS), lookupFS (eraseFS fs p) q = lookupFS fs q := by
  intro fs
  induction fs with
  | nil => simp [lookupFS, eraseFS]
  | cons e t ih =>
    rw [eraseFS_cons]
    by_cases he : e.1 = p
    · have h2 : ¬ e.1 = q := by rw [he]; exact fun h => hq h.symm
      rw [if_pos he, lookupFS_cons, if_neg h2]
      exact ih
    · rw [if_neg he, lookupFS_cons, lookupFS_cons]
      by_cases heq : e.1 = q
      · rw [if_pos heq, if_pos heq]
      · rw [if_neg heq, if_neg heq]
        exact ih

theorem lookup_mem_keys (p : String) :
    ∀ (fs : FS) v, lookupFS fs p = some v → p ∈ fs.map (fun e => e.1) := by
  intro fs
  induction fs with
  | nil => intro v hv; simp [lookupFS] at hv
  | cons e t ih =>
    intro v hv
    rw [lookupFS_cons] at hv
    by_cases he : e.1 = p
    · simp [he]
    · rw [if_neg he] at hv
      simp only [List.map_cons, List.mem_cons]
      exact Or.inr (ih v hv)

/-! ### Lemmas about the drain loop -/

theorem process_single_file_missing (d : String → String) (j : Jira) (fs : FS)
    (path : String) (acc : Nat) (h : lookupFS fs path = none) :
    ∀ fuel, process_single_file d fuel j fs path acc = ⟨none, j, fs, []⟩ := by
  intro fuel
  induction fuel with
  | zero => rfl
  | succ fuel ih =>
    simp only [process_single_file, h]
    exact ih

theorem process_single_file_frame (d : String → String) (path q : String)
    (hq : ¬ q = path) :
    ∀ (fuel : Nat) (j : Jira) (fs : FS) (acc : Nat),
      lookupFS (process_single_file d fuel j fs path acc).fs q = lookupFS fs q := by
  intro fuel
  induction fuel with
  | zero => intro j fs acc; rfl
  | succ fuel ih =>
    intro j fs acc
    cases hl : lookupFS fs path with
    | none =>
      simp only [process_single_file, hl]
      exact ih j fs acc
    | some lines =>
      by_cases hle : lines = []
      · simp [process_single_file, hl, hle]
      · by_cases hk : (onePass d j lines).kept = []
        · simp only [process_single_file, hl, if_neg hle, hk, if_pos]
          exact lookup_updateFS_ne path q _ hq fs
        · simp only [process_single_file, hl, if_neg hle, if_neg hk]
          rw [ih]
          exact lookup_updateFS_ne path q _ hq fs

theorem process_single_file_preserves_none (d : String → String) (path q : String)
    (fuel : Nat) (j : Jira) (fs : FS) (acc : Nat) (h : lookupFS fs q = none) :
    lookupFS (process_single_file d fuel j fs path acc).fs q = none := by
  by_cases hq : q = path
  · subst hq
    rw [process_single_file_missing d j fs q acc h fuel]
    exact h
  · rw [process_single_file_frame d path q hq fuel j fs acc]
    exact h

theorem process_single_file_no_connect (d : String → String) (path : String) :
    ∀ (fuel : Nat) (j : Jira) (fs : FS) (acc : Nat),
      Ev.connect ∉ (process_single_file d fuel j fs path acc).tr := by
  intro fuel
  induction fuel with
  | zero => intro j fs acc h; cases h
  | succ fuel ih =>
    intro j fs acc
    cases hl : lookupFS fs path with
    | none =>
      simp only [process_single_file, hl]
      exact ih j fs acc
    | some lines =>
      by_cases hle : lines = []
      · simp [process_single_file, hl, hle]
      · by_cases hk : (onePass d j lines).kept = []
        · simp only [process_single_file, hl, if_neg hle, hk, if_pos]
          exact onePass_no_connect d lines j
        · simp only [process_single_file, hl, if_neg hle, if_neg hk, List.mem_append]
          rintro (h | h)
          · exact onePass_no_connect d lines j h
          · exact ih _ _ _ h

theorem process_single_file_covers (d : String → String) (path : String) :
    ∀ (fuel : Nat) (j : Jira) (fs : FS) (acc c : Nat) (lines : List String),
      (process_single_file d fuel j fs path acc).res = some c →
      lookupFS fs path = some lines →
      ∀ l ∈ lines, ¬ stripStr l = "" →
        ∃ k, Ev.success (stripStr l) k ∈ (process_single_file d fuel j fs path acc).tr := by
  intro fuel
  induction fuel with
  | zero => intro j fs acc c lines hres; cases hres
  | succ fuel ih =>
    intro j fs acc c lines hres hlk l hl hne
    simp only [process_single_file, hlk] at hres ⊢
    by_cases hle : lines = []
    · subst hle; cases hl
    · simp only [if_neg hle] at hres ⊢
      by_cases hk : (onePass d j lines).kept = []
      · simp only [hk, if_pos] at hres ⊢
        rcases onePass_covers d lines j l hl hne with ⟨k, hkm⟩ | hkept
        · exact ⟨k, hkm⟩
        · rw [hk] at hkept; cases hkept
      · simp only [if_neg hk] at hres ⊢
        rcases onePass_covers d lines j l hl hne with ⟨k, hkm⟩ | hkept
        · exact ⟨k, List.mem_append.mpr (Or.inl hkm)⟩
        · have hlk2 : lookupFS (updateFS fs path (onePass d j lines).kept) path
              = some (onePass d j lines).kept :=
            lookup_updateFS_self path _ fs lines hlk
          have hne2 : ¬ stripStr (stripStr l) = "" := by
            rw [stripStr_idem]; exact hne
          obtain ⟨k, hk2⟩ := ih (onePass d j lines).jira
            (updateFS fs path (onePass d j lines).kept)
            (acc + (onePass d j lines).succ) c (onePass d j lines).kept hres hlk2
            (stripStr l) hkept hne2
          rw [stripStr_idem] at hk2
          exact ⟨k, List.mem_append.mpr (Or.inr hk2)⟩

theorem process_single_file_allfail (d : String → String) (path : String) :
    ∀ (fuel : Nat) (j : Jira) (fs : FS) (acc : Nat) (lines : List String) (l : String),
      j.tickets = [] → (∀ n, j.failAt n = true) →
      lookupFS fs path = some lines → l ∈ lines → ¬ stripStr l = "" →
      (process_single_file d fuel j fs path acc).res = none := by
  intro fuel
  induction fuel with
  | zero => intro j fs acc lines l _ _ _ _ _; rfl
  | succ fuel ih =>
    intro j fs acc lines l hT hF hlk hl hne
    simp only [process_single_file, hlk]
    have hle : ¬ lines = [] := by rintro rfl; cases hl
    simp only [if_neg hle]
    obtain ⟨i1, i2, i3⟩ := onePass_allfail d lines j hT hF
    have hkm : stripStr l ∈ (onePass d j lines).kept := i3 l hl hne
    have hk : ¬ (onePass d j lines).kept = [] := by
      intro h; rw [h] at hkm; cases hkm
    simp only [if_neg hk]
    exact ih (onePass d j lines).jira (updateFS fs path (onePass d j lines).kept)
      (acc + (onePass d j lines).succ) (onePass d j lines).kept (stripStr l) i1 i2
      (lookup_updateFS_self path _ fs lines hlk) hkm
      (by rw [stripStr_idem]; exact hne)

/-! ### Lemmas about the conflict-file phase -/

theorem eraseFS_preserves_none (fs : FS) (p q : String) (h : lookupFS fs q = none) :
    lookupFS (eraseFS fs p) q = none := by
  by_cases hq : q = p
  · subst hq; exact lookup_eraseFS_self q fs
  · rw [lookup_eraseFS_ne p q hq fs]; exact h

theorem drainConflicts_no_connect (d : String → String) (fuel : Nat) :
    ∀ (cs : List String) (j : Jira) (fs : FS),
      Ev.connect ∉ (drainConflicts d fuel j fs cs).tr := by
  intro cs
  induction cs with
  | nil => intro j fs h; cases h
  | cons c ps ih =>
    intro j fs
    cases hr : (process_single_file d fuel j fs c 0).res with
    | none =>
      simp only [drainConflicts, hr]
      exact process_single_file_no_connect d c fuel j fs 0
    | some c1 =>
      simp only [drainConflicts, hr, List.mem_append]
      rintro (h | h)
      · exact process_single_file_no_connect d c fuel j fs 0 h
      · exact ih _ _ h

theorem drainConflicts_preserves_none (d : String → String) (fuel : Nat) :
    ∀ (cs : List String) (j : Jira) (fs : FS) (q : String),
      lookupFS fs q = none → lookupFS (drainConflicts d fuel j fs cs).fs q = none := by
  intro cs
  induction cs with
  | nil => intro j fs q h; exact h
  | cons c ps ih =>
    intro j fs q h
    cases hr : (process_single_file d fuel j fs c 0).res with
    | none =>
      simp only [drainConflicts, hr]
      exact process_single_file_preserves_none d c q fuel j fs 0 h
    | some c1 =>
      simp only [drainConflicts, hr]
      exact ih _ _ q (eraseFS_preserves_none _ c q
        (process_single_file_preserves_none d c q fuel j fs 0 h))

theorem drainConflicts_erases (d : String → String) (fuel : Nat) :
    ∀ (cs : List String) (j : Jira) (fs : FS) (n : Nat),
      (drainConflicts d fuel j fs cs).total = some n →
      ∀ p ∈ cs, lookupFS (drainConflicts d fuel j fs cs).fs p = none := by
  intro cs
  induction cs with
  | nil => intro j fs n _ p hp; cases hp
  | cons c ps ih =>
    intro j fs n htot p hp
    cases hr : (process_single_file d fuel j fs c 0).res with
    | none => simp only [drainConflicts, hr] at htot; cases htot
    | some c1 =>
      simp only [drainConflicts, hr] at htot ⊢
      obtain ⟨m, hm, -⟩ := Option.map_eq_some'.mp htot
      rcases List.mem_cons.mp hp with rfl | hps
      · exact drainConflicts_preserves_none d fuel ps _ _ p
          (lookup_eraseFS_self p _)
      · exact ih _ _ m hm p hps

theorem drainConflicts_covers (d : String → String) (fuel : Nat) :
    ∀ (cs : List String) (j : Jira) (fs : FS) (p : String) (lines : List String) (n : Nat),
      (drainConflicts d fuel j fs cs).total = some n →
      lookupFS fs p = some lines →
      ∀ l ∈ lines, ¬ stripStr l = "" →
        (∃ k, Ev.success (stripStr l) k ∈ (drainConflicts d fuel j fs cs).tr) ∨
        (∃ q ls, lookupFS (drainConflicts d fuel j fs cs).fs q = some ls ∧ l ∈ ls) := by
  intro cs
  induction cs with
  | nil =>
    intro j fs p lines n _ hlk l hl _
    right
    exact ⟨p, lines, hlk, hl⟩
  | cons c ps ih =>
    intro j fs p lines n htot hlk l hl hne
    cases hr : (process_single_file d fuel j fs c 0).res with
    | none => simp only [drainConflicts, hr] at htot; cases htot
    | some c1 =>
      simp only [drainConflicts, hr] at htot ⊢
      obtain ⟨m, hm, -⟩ := Option.map_eq_some'.mp htot
      by_cases hpc : p = c
      · subst hpc
        obtain ⟨k, hk⟩ :=
          process_single_file_covers d p fuel j fs 0 c1 lines hr hlk l hl hne
        exact Or.inl ⟨k, List.mem_append.mpr (Or.inl hk)⟩
      · have h3 : lookupFS (eraseFS (process_single_file d fuel j fs c 0).fs c) p
            = some lines := by
          rw [lookup_eraseFS_ne c p hpc]
          rw [process_single_file_frame d c p hpc fuel j fs 0]
          exact hlk
        rcases ih _ _ p lines m hm h3 l hl hne with ⟨k, hk⟩ | ⟨q, ls, hq, hlq⟩
        · exact Or.inl ⟨k, List.mem_append.mpr (Or.inr hk)⟩
        · exact Or.inr ⟨q, ls, hq, hlq⟩

/-! ### Lemmas about the hashtag scanner -/

theorem string_mk_data : ∀ s : String, String.mk s.data = s := by
  intro s; cases s; rfl

theorem foldl_scanStep_no_hash :
    ∀ (l : List Char) (ts : List String) (out : List Char),
      (∀ c ∈ l, ¬ c = '#') →
      l.foldl scanStep ⟨ts, out, .normal⟩ = ⟨ts, out ++ l, .normal⟩ := by
  intro l
  induction l with
  | nil => intro ts out _; simp
  | cons c rest ih =>
    intro ts out h
    have hc : ¬ c = '#' := h c (List.mem_cons_self c rest)
    simp only [List.foldl_cons]
    rw [show scanStep ⟨ts, out, .normal⟩ c = ⟨ts, out ++ [c], .normal⟩ from by
      simp [scanStep, hc]]
    rw [ih ts (out ++ [c]) (fun x hx => h x (List.mem_cons_of_mem c hx))]
    simp

/-- Invariant carried by the scanner mode: a pending capture is a nonempty
run of word characters. -/
def modeOk : ScanMode → Prop
  | .inTag cur => ¬ cur = [] ∧ ∀ c ∈ cur, isWordChar c = true
  | _ => True

theorem string_mk_ne_empty (cur : List Char) (h : ¬ cur = []) : ¬ String.mk cur = "" := by
  intro hmk
  apply h
  have h3 : (String.mk cur).data = ("" : String).data := by rw [hmk]
  exact h3

/-- One scanner step preserves the tag/mode invariant. -/
theorem scanStep_inv (ts : List String) (out : List Char) (mode : ScanMode) (c : Char)
    (hts : ∀ t ∈ ts, ¬ t = "" ∧ ∀ x ∈ t.data, isWordChar x = true) (hm : modeOk mode) :
    (∀ t ∈ (scanStep ⟨ts, out, mode⟩ c).tags,
        ¬ t = "" ∧ ∀ x ∈ t.data, isWordChar x = true) ∧
      modeOk (scanStep ⟨ts, out, mode⟩ c).mode := by
  cases mode with
  | normal =>
    by_cases hc : c = '#'
    · simp only [scanStep, if_pos hc]
      exact ⟨hts, True.intro⟩
    · simp only [scanStep, if_neg hc]
      exact ⟨hts, True.intro⟩
  | afterHash =>
    by_cases hw : isWordChar c = true
    · simp only [scanStep, if_pos hw]
      refine ⟨hts, by simp, ?_⟩
      intro x hx
      rcases List.mem_singleton.mp hx with rfl
      exact hw
    · by_cases hc : c = '#'
      · simp only [scanStep, if_neg hw, if_pos hc]
        exact ⟨hts, True.intro⟩
      · simp only [scanStep, if_neg hw, if_neg hc]
        exact ⟨hts, True.intro⟩
  | inTag cur =>
    obtain ⟨hc0, hcw⟩ := hm
    have htag : ¬ String.mk cur = "" ∧ ∀ x ∈ (String.mk cur).data, isWordChar x = true :=
      ⟨string_mk_ne_empty cur hc0, fun x hx => hcw x hx⟩
    have htags : ∀ t ∈ ts ++ [String.mk cur], ¬ t = "" ∧ ∀ x ∈ t.data, isWordChar x = true := by
      intro t ht
      rcases List.mem_append.mp ht with h1 | h2
      · exact hts t h1
      · rcases List.mem_singleton.mp h2 with rfl
        exact htag
    by_cases hw : isWordChar c = true
    · simp only [scanStep, if_pos hw]
      refine ⟨hts, by simp, ?_⟩
      intro x hx
      rcases List.mem_append.mp hx with h1 | h2
      · exact hcw x h1
      · rcases List.mem_singleton.mp h2 with rfl
        exact hw
    · by_cases hc : c = '#'
      · simp only [scanStep, if_neg hw, if_pos hc]
        exact ⟨htags, True.intro⟩
      · simp only [scanStep, if_neg hw, if_neg hc]
        exact ⟨htags, True.intro⟩

/-- The produced-so-far tags and the pending capture stay nonempty word runs. -/
theorem foldl_scanStep_wordy :
    ∀ (l : List Char) (s : ScanSt),
      (∀ t ∈ s.tags, ¬ t = "" ∧ ∀ x ∈ t.data, isWordChar x = true) → modeOk s.mode →
      (∀ t ∈ (l.foldl scanStep s).tags,
          ¬ t = "" ∧ ∀ x ∈ t.data, isWordChar x = true) ∧
        modeOk (l.foldl scanStep s).mode := by
  intro l
  induction l with
  | nil => intro s hts hm; exact ⟨hts, hm⟩
  | cons c rest ih =>
    intro s hts hm
    obtain ⟨ts, out, mode⟩ := s
    obtain ⟨h1, h2⟩ := scanStep_inv ts out mode c hts hm
    simp only [List.foldl_cons]
    exact ih (scanStep ⟨ts, out, mode⟩ c) h1 h2

theorem extract_hashtags_wordy (s : String) :
    ∀ t ∈ extract_hashtags s, ¬ t = "" ∧ ∀ x ∈ t.data, isWordChar x = true := by
  intro t ht
  obtain ⟨h1, h2⟩ := foldl_scanStep_wordy s.data ⟨[], [], .normal⟩
    (by intro x hx; cases hx) True.intro
  simp only [extract_hashtags, scanTags] at ht
  cases hst : s.data.foldl scanStep ⟨[], [], .normal⟩ with
  | mk fts fout fmode =>
    rw [hst] at ht h1 h2
    cases fmode with
    | normal => exact h1 t (by simpa [scanFinish] using ht)
    | afterHash => exact h1 t (by simpa [scanFinish] using ht)
    | inTag cur =>
      obtain ⟨hc0, hcw⟩ := h2
      simp only [scanFinish] at ht
      rcases List.mem_append.mp ht with hin | hin
      · exact h1 t hin
      · rcases List.mem_singleton.mp hin with rfl
        exact ⟨string_mk_ne_empty cur hc0, fun x hx => hcw x hx⟩

/-! ### Concrete fixtures used by witnesses and counterexamples -/

/-- A concrete digest instance (the claims hold for every digest). -/
def idDigest : String → String := fun s => s

/-- A tracker with no tickets whose creates always succeed. -/
def jiraOK : Jira := ⟨[], 0, fun _ => false, 0⟩

/-- A tracker with no tickets whose creates always fail. -/
def jiraFail : Jira := ⟨[], 0, fun _ => true, 0⟩

/-- A tracker whose second `create_issue` call (call index 1) fails and all
others succeed. -/
def jiraFailSecond : Jira := ⟨[], 0, fun n => decide (n = 1), 0⟩

/-- A tracker whose first `create_issue` call succeeds and every later call
fails. -/
def jiraFailFromSecond : Jira := ⟨[], 0, fun n => decide (1 ≤ n), 0⟩

/-- An empty primary file next to a conflict file with two lines. -/
def fsConflict : FS := [("t.md", []), ("t.sync-conflict-1.txt", ["a", "b"])]

/-- A conflict file present while the primary file is absent. -/
def fsOnlyConflict : FS := [("t.sync-conflict-1.txt", ["x"])]

/-! ### The claims -/

/-- C1: for every completed invocation of `process_file`, over any file
contents and any gateway behaviour, no non-blank line is silently
discarded: every non-blank line of every file present at the start either
was answered by the gateway with a ticket key (a `success` event for its
stripped text appears in the invocation's trace) or is still present in
some file at the end of the invocation. -/
theorem C1_no_silent_discard (d : String → String) (fuel : Nat) (connOk : Bool)
    (j : Jira) (fs : FS) (path : String) (n : Nat)
    (hrun : (process_file d fuel connOk j fs path).total = some n) :
    ∀ (p : String) (ls : List String), lookupFS fs p = some ls →
      ∀ l ∈ ls, ¬ stripStr l = "" →
        (∃ k, Ev.success (stripStr l) k ∈ (process_file d fuel connOk j fs path).tr) ∨
        (∃ q ls2, lookupFS (process_file d fuel connOk j fs path).fs q = some ls2 ∧
          l ∈ ls2) := by
  intro p ls hlk l hl hne
  by_cases hmain : lookupFS fs path = none
  · right
    refine ⟨p, ls, ?_, hl⟩
    simp only [process_file, if_pos hmain]
    exact hlk
  · cases connOk with
    | false =>
      right
      refine ⟨p, ls, ?_, hl⟩
      simp only [process_file, if_neg hmain, if_pos rfl]
      exact hlk
    | true =>
      have hcond : ¬ (true = false) := by simp
      rcases hr : (process_single_file d fuel j fs path 0).res with _ | c
      · exfalso
        simp only [process_file, if_neg hmain, if_neg hcond, hr] at hrun
        cases hrun
      · simp only [process_file, if_neg hmain, if_neg hcond, hr] at hrun ⊢
        obtain ⟨m, hm, -⟩ := Option.map_eq_some'.mp hrun
        by_cases hp : p = path
        · subst hp
          obtain ⟨k, hk⟩ :=
            process_single_file_covers d p fuel j fs 0 c ls hr hlk l hl hne
          exact Or.inl ⟨k, List.mem_cons.mpr (Or.inr (List.mem_append.mpr (Or.inl hk)))⟩
        · have hlk2 : lookupFS (process_single_file d fuel j fs path 0).fs p = some ls := by
            rw [process_single_file_frame d path p hp fuel j fs 0]
            exact hlk
          rcases drainConflicts_covers d fuel
              (get_sync_conflict_files (process_single_file d fuel j fs path 0).fs path)
              (process_single_file d fuel j fs path 0).jira
              (process_single_file d fuel j fs path 0).fs p ls m hm hlk2 l hl hne with
            ⟨k, hk⟩ | ⟨q, ls2, hq, hlq⟩
          · exact Or.inl
              ⟨k, List.mem_cons.mpr (Or.inr (List.mem_append.mpr (Or.inr hk)))⟩
          · exact Or.inr ⟨q, ls2, hq, hlq⟩

/-- Witness for C1: a completed run over a one-line file; the line was
ticketed or survives on disk. -/
theorem C1_witness :
    (∃ k, Ev.success (stripStr "hello") k ∈
        (process_file idDigest 3 true jiraOK [("t.md", ["hello"])] "t.md").tr) ∨
    (∃ q ls2, lookupFS (process_file idDigest 3 true jiraOK [("t.md", ["hello"])] "t.md").fs q
        = some ls2 ∧ "hello" ∈ ls2) :=
  C1_no_silent_discard idDigest 3 true jiraOK [("t.md", ["hello"])] "t.md" 1 (by decide)
    "t.md" ["hello"] (by decide) "hello" (by decide) (by decide)

/-- C2 counterexample: the line `"  a  "` fails against the gateway, and
after the drain pass the file holds `"a"` — the stripped text, not the
original character-for-character text. -/
theorem C2_counterexample :
    lookupFS ((process_single_file idDigest 2 jiraFail [("f", ["  a  "])] "f" 0).fs) "f"
        = some ["a"] ∧
    ¬ ("a" : String) = "  a  " :=
  ⟨by decide, by decide⟩

/-- C2 (amended): after one lock-read-process-rewrite cycle the file
contains exactly the lines the gateway failed on, in their original order
and with no other lines, but each written back in stripped form: the
per-line verdicts carry the stripped text of each input line, the rewritten
file is exactly the non-consumed verdicts, and the cycle's count is the
number of consumed lines. -/
theorem C2_pass_keeps_exactly_stripped_failures (d : String → String)
    (j : Jira) (lines : List String) :
    ((passVerdicts d j lines).map Prod.fst = lines.map stripStr) ∧
    ((onePass d j lines).kept
      = ((passVerdicts d j lines).filter (fun v => !v.2)).map Prod.fst) ∧
    ((onePass d j lines).succ = (passVerdicts d j lines).countP (fun v => v.2)) :=
  onePass_verdicts d lines j

/-- C3 counterexample: with a gateway that fails every create, a drain of a
one-line file attempts that line's create once per cycle (three times in
three cycles) instead of at most once, and has not returned. -/
theorem C3_counterexample :
    ((process_single_file idDigest 3 jiraFail [("f", ["a"])] "f" 0).tr.countP
        (fun e => decide (e = Ev.attempt "a")) = 3) ∧
    (process_single_file idDigest 3 jiraFail [("f", ["a"])] "f" 0).res = none :=
  ⟨by decide, by decide⟩

/-- C3 (amended): a drain is a retrying loop of lock-read-process-rewrite
cycles, not a single cycle: failed lines are written back and immediately
re-attempted in the next cycle, and under a gateway that persistently fails
(no matching open ticket ever exists and every create raises) a drain of a
file with a non-blank line never returns its count, for any number of
cycles. -/
theorem C3_drain_retries_failed_lines_forever (d : String → String) (fuel : Nat)
    (j : Jira) (fs : FS) (path : String) (acc : Nat) (lines : List String) (l : String)
    (hT : j.tickets = []) (hF : ∀ n, j.failAt n = true)
    (hlk : lookupFS fs path = some lines) (hl : l ∈ lines) (hne : ¬ stripStr l = "") :
    (process_single_file d fuel j fs path acc).res = none :=
  process_single_file_allfail d path fuel j fs acc lines l hT hF hlk hl hne

/-- Witness for C3 at a concrete persistently failing gateway. -/
theorem C3_witness :
    (process_single_file idDigest 4 jiraFail [("f", ["a"])] "f" 0).res = none :=
  C3_drain_retries_failed_lines_forever idDigest 4 jiraFail [("f", ["a"])] "f" 0
    ["a"] "a" rfl (fun _ => rfl) (by decide) (by decide) (by decide)

/-- C4 counterexample: draining a file holding one whitespace-only line
returns a successful count of 1, although no non-blank line succeeded. -/
theorem C4_counterexample :
    (process_single_file idDigest 2 jiraOK [("f", ["  "])] "f" 0).res = some 1 ∧
    List.countP (fun l => decide (¬ stripStr l = "")) ["  "] = 0 :=
  ⟨by decide, by decide⟩

/-- C4 (amended): blank lines are dropped (never written back — everything
written back is non-empty), but each blank line increments the successful
count: a cycle's count equals the number of blank lines plus the number of
successful gateway creates. -/
theorem C4_blank_lines_count_as_successes (d : String → String) (j : Jira)
    (lines : List String) :
    ((onePass d j lines).succ
      = lines.countP (fun l => decide (stripStr l = ""))
        + ((onePass d j lines).tr.countP evIsSuccess)) ∧
    (∀ x ∈ (onePass d j lines).kept, ¬ x = "") :=
  ⟨onePass_succ_counts_blanks d lines j,
   fun x hx => (onePass_kept_stripped d lines j x hx).2⟩

/-- Witness for C4 at a concrete cycle with one blank and one failing line. -/
theorem C4_witness :
    ((onePass idDigest jiraFail ["  ", "  a  "]).succ
      = List.countP (fun l => decide (stripStr l = "")) ["  ", "  a  "]
        + ((onePass idDigest jiraFail ["  ", "  a  "]).tr.countP evIsSuccess)) ∧
    ¬ ("a" : String) = "" :=
  ⟨(C4_blank_lines_count_as_successes idDigest jiraFail ["  ", "  a  "]).1,
   (C4_blank_lines_count_as_successes idDigest jiraFail ["  ", "  a  "]).2 "a" (by decide)⟩

/-- C5 counterexample: in `"x #ab-c"` the token stops at the non-word
character `-` instead of extending to the next whitespace, so the label is
`"ab"` (not `"ab-c"`) and the summary keeps `-c`. -/
theorem C5_counterexample :
    extract_hashtags "x #ab-c" = ["ab"] ∧
    ¬ extract_hashtags "x #ab-c" = ["ab-c"] ∧
    clean_summary "x #ab-c" = "x -c" ∧
    ¬ clean_summary "x #ab-c" = "x" :=
  ⟨by decide, by decide, by decide, by decide⟩

/-- C5 (amended): a `#` starts a label only when immediately followed by a
word character (letter, digit or underscore), and the label is the maximal
following word-character run — not everything up to the next whitespace; a
`#` not followed by a word character stays in the summary.  Labels are
produced in order with duplicates and case preserved; a line with no `#` at
all yields no labels and a summary equal to the trimmed input.  Every
produced label is a nonempty word-character run, as the examples
(including a run stopped by `-`, and unresolved `#`s) show. -/
theorem C5_label_tokens_are_word_runs :
    (∀ s : String, (∀ c ∈ s.data, ¬ c = '#') →
        extract_hashtags s = [] ∧ clean_summary s = stripStr s) ∧
    (∀ s : String, ∀ t ∈ extract_hashtags s, ¬ t = "" ∧ ∀ x ∈ t.data, isWordChar x = true) ∧
    extract_hashtags "Buy milk #errand #home" = ["errand", "home"] ∧
    clean_summary "Buy milk #errand #home" = "Buy milk" ∧
    extract_hashtags "#ab-c #9_x ##tag #" = ["ab", "9_x", "tag"] ∧
    clean_summary "#ab-c #9_x ##tag #" = "-c  # #" := by
  refine ⟨?_, extract_hashtags_wordy, by decide, by decide, by decide, by decide⟩
  intro s h
  have hf := foldl_scanStep_no_hash s.data [] [] h
  constructor
  · simp [extract_hashtags, scanTags, hf, scanFinish]
  · simp [clean_summary, scanTags, hf, scanFinish, string_mk_data]

/-- Witness for C5: a line with no `#` yields no labels and the trimmed
input as summary. -/
theorem C5_witness :
    extract_hashtags " plain note text " = [] ∧
    clean_summary " plain note text " = stripStr " plain note text " :=
  C5_label_tokens_are_word_runs.1 " plain note text " (by decide)

/-- C6 counterexample.  First run: a conflict file with lines `a` and `b`
where `a`'s create succeeds and `b`'s first create fails — the drain loop
retries `b` within the same invocation, it then succeeds, and the
accumulated count is 2, not 1.  Second run: if `b` fails persistently, the
invocation never completes and the conflict file is never deleted (it still
holds `b` after six cycles). -/
theorem C6_counterexample :
    ((process_file idDigest 5 true jiraFailSecond fsConflict "t.md").total = some 2 ∧
      ¬ (2 : Nat) = 1 ∧
      lookupFS (process_file idDigest 5 true jiraFailSecond fsConflict "t.md").fs
        "t.sync-conflict-1.txt" = none) ∧
    ((process_file idDigest 6 true jiraFailFromSecond fsConflict "t.md").total = none ∧
      lookupFS (process_file idDigest 6 true jiraFailFromSecond fsConflict "t.md").fs
        "t.sync-conflict-1.txt" = some ["b"]) :=
  ⟨⟨by decide, by decide, by decide⟩, ⟨by decide, by decide⟩⟩

/-- C6 (amended): a conflict file is deleted only when its drain completes,
and a drain completes only once every remaining line has been consumed (the
loop retries failures within the invocation, so a completed invocation's
count includes lines that succeeded after earlier failed attempts, and a
persistently failing line keeps the invocation from completing).  Hence
after any completed invocation whose primary file exists and whose
connection succeeded, no path matching the conflict pattern remains on
disk. -/
theorem C6_conflict_files_deleted_on_completion (d : String → String) (fuel : Nat)
    (j : Jira) (fs : FS) (path : String) (lines : List String) (n : Nat)
    (hmain : lookupFS fs path = some lines)
    (hrun : (process_file d fuel true j fs path).total = some n) :
    ∀ p, matchesConflictPattern path p = true →
      lookupFS (process_file d fuel true j fs path).fs p = none := by
  intro p hp
  have hmain2 : ¬ lookupFS fs path = none := by rw [hmain]; simp
  have hcond : ¬ (true = false) := by simp
  rcases hr : (process_single_file d fuel j fs path 0).res with _ | c
  · exfalso
    simp only [process_file, if_neg hmain2, if_neg hcond, hr] at hrun
    cases hrun
  · simp only [process_file, if_neg hmain2, if_neg hcond, hr] at hrun ⊢
    obtain ⟨m, hm, -⟩ := Option.map_eq_some'.mp hrun
    cases hlp : lookupFS (process_single_file d fuel j fs path 0).fs p with
    | none => exact drainConflicts_preserves_none d fuel _ _ _ p hlp
    | some v =>
      have hpmem : p ∈ get_sync_conflict_files (process_single_file d fuel j fs path 0).fs path := by
        simp only [get_sync_conflict_files, List.mem_filter]
        exact ⟨lookup_mem_keys p _ v hlp, hp⟩
      exact drainConflicts_erases d fuel _ _ _ m hm p hpmem

/-- Witness for C6: after a completed run, the conflict file is gone. -/
theorem C6_witness :
    lookupFS (process_file idDigest 5 true jiraOK fsConflict "t.md").fs
      "t.sync-conflict-1.txt" = none :=
  C6_conflict_files_deleted_on_completion idDigest 5 jiraOK fsConflict "t.md" [] 2
    (by decide) (by decide) "t.sync-conflict-1.txt" (by decide)

/-- C7 counterexample: a drain of a nonexistent path does not report zero
and return — after five retry cycles it still has no result (the missing
file raises `FileNotFoundError`, an `IOError`, which the lock-contention
handler catches, sleeps on, and retries). -/
theorem C7_counterexample :
    (process_single_file idDigest 5 jiraOK [("g", ["x"])] "f" 0).res = none ∧
    (process_single_file idDigest 5 jiraOK [("g", ["x"])] "f" 0).fs = [("g", ["x"])] :=
  ⟨rfl, rfl⟩

/-- C7 (amended): `process_single_file` has no existence check: a drain of
a path that does not exist never reports a count — it retries indefinitely
(for any number of cycles), with no error surfaced, no gateway events and
no change to any file.  The report-zero-and-return behaviour exists only in
`process_file`'s top-level check on the primary path. -/
theorem C7_drain_retries_missing_file (d : String → String) (fuel : Nat) (j : Jira)
    (fs : FS) (path : String) (acc : Nat) (h : lookupFS fs path = none) :
    process_single_file d fuel j fs path acc = ⟨none, j, fs, []⟩ :=
  process_single_file_missing d j fs path acc h fuel

/-- Witness for C7 at a concrete missing path. -/
theorem C7_witness :
    process_single_file idDigest 3 jiraOK [] "f" 0 = ⟨none, jiraOK, [], []⟩ :=
  C7_drain_retries_missing_file idDigest 3 jiraOK [] "f" 0 rfl

/-- C8: `create_ticket` first queries for an existing non-closed ticket
carrying the fingerprint; whenever one exists the query succeeds, the
found ticket's key is returned with the tracker unchanged (no new ticket),
and a second submission for the same fingerprint — hence for the same
trimmed line text — returns the same existing key again. -/
theorem C8_create_is_idempotent :
    (∀ (j : Jira) (h : String),
        (∃ t ∈ j.tickets, t.contentHash = h ∧ t.done = false) →
        (find_existing_ticket j h).isSome = true) ∧
    (∀ (j : Jira) (line line2 h : String) (t : Ticket),
        find_existing_ticket j h = some t →
        create_ticket j line h = (some t.key, j) ∧
        create_ticket ((create_ticket j line h).2) line2 h = (some t.key, j)) := by
  constructor
  · rintro j h ⟨t, ht, hh, hd⟩
    have hp : (fun u => decide (u.contentHash = h) && !u.done) t = true := by
      simp [hh, hd]
    simp only [find_existing_ticket]
    exact List.find?_isSome.mpr ⟨t, ht, hp⟩
  · intro j line line2 h t hft
    have h1 : create_ticket j line h = (some t.key, j) := by
      simp [create_ticket, hft]
    refine ⟨h1, ?_⟩
    rw [h1]
    simp [create_ticket, hft]

/-- The open ticket used by the C8 witness. -/
def ticketW : Ticket := ⟨7, "s", [], "h1", false⟩

/-- A tracker already holding `ticketW`. -/
def jiraW : Jira := ⟨[ticketW], 8, fun _ => false, 0⟩

/-- Witness for C8: with an open ticket for `"h1"`, both submissions return
key 7 and the tracker is unchanged. -/
theorem C8_witness :
    ((find_existing_ticket jiraW "h1").isSome = true) ∧
    (create_ticket jiraW "buy milk" "h1" = (some 7, jiraW) ∧
      create_ticket ((create_ticket jiraW "buy milk" "h1").2) "buy milk" "h1"
        = (some 7, jiraW)) :=
  ⟨C8_create_is_idempotent.1 jiraW "h1" (by decide),
   C8_create_is_idempotent.2 jiraW "buy milk" "buy milk" "h1" ticketW (by decide)⟩

/-- C9 counterexample: an invocation whose primary file is missing performs
the connection step zero times, not exactly once. -/
theorem C9_counterexample :
    (process_file idDigest 1 true jiraOK [] "t.md").tr.countP
        (fun e => decide (e = Ev.connect)) = 0 ∧
    ¬ (0 : Nat) = 1 :=
  ⟨by decide, by decide⟩

/-- C9 (amended): for every invocation whose primary file exists, the
connection step is performed exactly once — it is the first gateway event,
before any line is processed, and no further connect happens; if it fails,
the whole invocation returns at once with no file mutated, no conflict file
deleted, and no line processed. -/
theorem C9_connect_once_when_primary_exists (d : String → String) (fuel : Nat)
    (connOk : Bool) (j : Jira) (fs : FS) (path : String) (lines : List String)
    (hmain : lookupFS fs path = some lines) :
    (process_file d fuel connOk j fs path).tr.head? = some Ev.connect ∧
    (process_file d fuel connOk j fs path).tr.countP
      (fun e => decide (e = Ev.connect)) = 1 ∧
    (connOk = false →
      (process_file d fuel connOk j fs path).fs = fs ∧
      (process_file d fuel connOk j fs path).total = some 0 ∧
      (process_file d fuel connOk j fs path).tr = [Ev.connect]) := by
  have hmain2 : ¬ lookupFS fs path = none := by rw [hmain]; simp
  cases connOk with
  | false =>
    have h1 : process_file d fuel false j fs path = ⟨some 0, j, fs, [Ev.connect]⟩ := by
      simp [process_file, hmain2]
    rw [h1]
    exact ⟨rfl, rfl, fun _ => ⟨rfl, rfl, rfl⟩⟩
  | true =>
    have hcond : ¬ (true = false) := by simp
    rcases hr : (process_single_file d fuel j fs path 0).res with _ | c
    · simp only [process_file, if_neg hmain2, if_neg hcond, hr]
      refine ⟨rfl, ?_, fun hfalse => by cases hfalse⟩
      have h0 : (process_single_file d fuel j fs path 0).tr.countP
          (fun e => decide (e = Ev.connect)) = 0 :=
        List.countP_eq_zero.mpr (fun a ha hdec => by
          rcases of_decide_eq_true hdec with rfl
          exact process_single_file_no_connect d path fuel j fs 0 ha)
      simp [List.countP_cons, h0]
    · simp only [process_file, if_neg hmain2, if_neg hcond, hr]
      refine ⟨rfl, ?_, fun hfalse => by cases hfalse⟩
      have h0 : ((process_single_file d fuel j fs path 0).tr
            ++ (drainConflicts d fuel (process_single_file d fuel j fs path 0).jira
                (process_single_file d fuel j fs path 0).fs
                (get_sync_conflict_files (process_single_file d fuel j fs path 0).fs
                  path)).tr).countP (fun e => decide (e = Ev.connect)) = 0 :=
        List.countP_eq_zero.mpr (fun a ha hdec => by
          rcases of_decide_eq_true hdec with rfl
          rcases List.mem_append.mp ha with h1 | h2
          · exact process_single_file_no_connect d path fuel j fs 0 h1
          · exact drainConflicts_no_connect d fuel _ _ _ h2)
      simp [List.countP_cons, h0]

/-- Witness for C9 at a concrete run whose primary file exists. -/
theorem C9_witness :
    (process_file idDigest 2 true jiraOK [("t.md", ["x"])] "t.md").tr.head?
        = some Ev.connect ∧
    (process_file idDigest 2 true jiraOK [("t.md", ["x"])] "t.md").tr.countP
        (fun e => decide (e = Ev.connect)) = 1 ∧
    (true = false →
      (process_file idDigest 2 true jiraOK [("t.md", ["x"])] "t.md").fs
          = [("t.md", ["x"])] ∧
      (process_file idDigest 2 true jiraOK [("t.md", ["x"])] "t.md").total = some 0 ∧
      (process_file idDigest 2 true jiraOK [("t.md", ["x"])] "t.md").tr = [Ev.connect]) :=
  C9_connect_once_when_primary_exists idDigest 2 true jiraOK [("t.md", ["x"])] "t.md"
    ["x"] (by decide)

/-- C10: if the primary path does not exist, `process_file` returns at once
with zero successes, no gateway session (its trace is empty), the
filesystem untouched, and in particular every conflict file matching the
naming convention neither drained nor deleted. -/
theorem C10_missing_primary_returns_before_connect (d : String → String) (fuel : Nat)
    (connOk : Bool) (j : Jira) (fs : FS) (path : String)
    (h : lookupFS fs path = none) :
    process_file d fuel connOk j fs path = ⟨some 0, j, fs, []⟩ ∧
    ∀ p ∈ get_sync_conflict_files fs path,
      lookupFS (process_file d fuel connOk j fs path).fs p = lookupFS fs p := by
  have h1 : process_file d fuel connOk j fs path = ⟨some 0, j, fs, []⟩ := by
    simp only [process_file, if_pos h]
  exact ⟨h1, fun p _ => by rw [h1]⟩

/-- Witness for C10: a missing primary next to an existing conflict file. -/
theorem C10_witness :
    process_file idDigest 2 true jiraOK fsOnlyConflict "t.md"
      = ⟨some 0, jiraOK, fsOnlyConflict, []⟩ :=
  (C10_missing_primary_returns_before_connect idDigest 2 true jiraOK fsOnlyConflict
    "t.md" (by decide)).1
